import Mathlib

/-!
Verification of the GEOM4009 planning-project core (`planning.py`): the
hexagonal grid builder (`create_hexagon`, `create_hexgrid`,
`create_planning_unit_grid`) and the overlap engine (`calculate`,
`calculate_overlap`).

The geometry backend (shapely / geopandas primitives) is external to the
repository; it is modelled abstractly.  A geometry is a finite set of
points, geometric intersection is set intersection, and the backend's
area measure and convex hull are parameters of the model (the convex-hull
containment property `g ⊆ hull g` is taken as a hypothesis where a claim
needs it).  The grid builder's floating-point arithmetic is modelled by
exact real arithmetic.
-/

/-! ## Overlap engine: data model -/

/-- A planning-unit grid cell: the unique integer identifier (`PUID`
column, assigned as `index + 1` by `create_planning_unit_grid`) plus the
cell's geometry, modelled as a finite set of points. -/
structure PUCell (α : Type) where
  puid : ℕ
  geom : Finset α
deriving DecidableEq

/-- A conservation-layer feature: its `ID` attribute plus its geometry. -/
structure Feature (α : Type) where
  fid : ℤ
  geom : Finset α
deriving DecidableEq

/-- One row of the intersection output of `calculate`: the cell's `PUID`,
the feature's `ID`, and the `AMOUNT` column (the intersection area rounded
and cast to an integer dtype by `intersection[AMOUNT].round().astype(int)`). -/
structure OverlapRecord where
  puid : ℕ
  fid : ℤ
  amount : ℤ
deriving DecidableEq

/-- Modelled from the numpy/pandas backend: `Series.round()` rounds half
to even (banker's rounding), then `astype(int)` yields an integer. -/
def roundHalfEven (q : ℚ) : ℤ :=
  if q - ⌊q⌋ < 1 / 2 then ⌊q⌋
  else if (1 : ℚ) / 2 < q - ⌊q⌋ then ⌊q⌋ + 1
  else if ⌊q⌋ % 2 = 0 then ⌊q⌋ else ⌊q⌋ + 1

variable {α : Type} [DecidableEq α]

/-- Modelled from the geopandas backend: the mask that
`gpd.clip(planning_grid, layer.geometry.convex_hull)` clips against, namely
the union of the per-feature convex hulls of the layer (`hl` is the
abstract convex-hull operation of the backend). -/
def layerMask (hl : Finset α → Finset α) (L : List (Feature α)) : Finset α :=
  L.foldr (fun f acc => hl f.geom ∪ acc) ∅

/-- Modelled from the geopandas backend: `gpd.clip(planning_grid, mask)`
replaces each cell geometry by its intersection with the mask and keeps
only the cells whose clipped geometry is non-empty. -/
def clipCells (planning_grid : List (PUCell α)) (mask : Finset α) :
    List (PUCell α) :=
  planning_grid.filterMap (fun c =>
    if (c.geom ∩ mask).Nonempty then some ⟨c.puid, c.geom ∩ mask⟩ else none)

/-- Modelled from the geopandas backend:
`gpd.overlay(clipped_grid, layer, how="intersection")` emits one row per
(cell, feature) pair with non-empty geometric intersection, carrying the
attributes of both sides; `calculate` then appends the `AMOUNT` column,
the row's area rounded and cast to an integer (`a` is the abstract area
measure of the backend). -/
def overlayRows (a : Finset α → ℚ) (cells : List (PUCell α))
    (L : List (Feature α)) : List OverlapRecord :=
  cells.flatMap (fun c =>
    L.filterMap (fun f =>
      if (c.geom ∩ f.geom).Nonempty then
        some ⟨c.puid, f.fid, roundHalfEven (a (c.geom ∩ f.geom))⟩
      else none))

/-- The per-cell contribution to `overlayRows ∘ clipCells`; used to state
structural lemmas about the per-partition work. -/
def cellRows (a : Finset α → ℚ) (mask : Finset α) (L : List (Feature α))
    (c : PUCell α) : List OverlapRecord :=
  if (c.geom ∩ mask).Nonempty then
    L.filterMap (fun f =>
      if ((c.geom ∩ mask) ∩ f.geom).Nonempty then
        some ⟨c.puid, f.fid, roundHalfEven (a ((c.geom ∩ mask) ∩ f.geom))⟩
      else none)
  else []

/-- Stated from the spec's words, for the refinement comparison of the
convex-hull pre-filter: the records obtained by intersecting every cell
against every feature directly, with no pre-filter. -/
def directRows (a : Finset α → ℚ) (planning_grid : List (PUCell α))
    (L : List (Feature α)) : List OverlapRecord :=
  planning_grid.flatMap (fun c =>
    L.filterMap (fun f =>
      if (c.geom ∩ f.geom).Nonempty then
        some ⟨c.puid, f.fid, roundHalfEven (a (c.geom ∩ f.geom))⟩
      else none))

/-- Embedding of `calculate` (planning.py, lines 600-633), the target
function of the processor pool: for each non-empty conservation layer it
clips the planning grid to the layer's convex hulls, overlays the clipped
grid with the layer, and appends the rounded-area column; empty layers are
skipped with a warning.  Returns the emitted warnings together with the
list of per-layer intersection tables. -/
def calculate (a : Finset α → ℚ) (hl : Finset α → Finset α)
    (planning_grid : List (PUCell α)) (cons_layers : List (List (Feature α))) :
    List String × List (List OverlapRecord) :=
  cons_layers.foldr
    (fun L acc =>
      if L.isEmpty then ("Skipping empty conservation layer." :: acc.1, acc.2)
      else (acc.1,
        overlayRows a (clipCells planning_grid (layerMask hl L)) L :: acc.2))
    ([], [])

/-- Modelled from the numpy backend: `np.array_split(l, n)` splits `l`
into `n` contiguous parts, `l.length % n` of size `l.length / n + 1`
followed by the rest of size `l.length / n`. -/
def arraySplit {β : Type} : List β → ℕ → List (List β)
  | _, 0 => []
  | l, n + 1 =>
    l.take (l.length / (n + 1) + if l.length % (n + 1) = 0 then 0 else 1) ::
      arraySplit
        (l.drop (l.length / (n + 1) + if l.length % (n + 1) = 0 then 0 else 1)) n

/-- Embedding of `calculate_overlap` (planning.py, lines 636-696): guards
against an empty layer list and an empty planning grid (returning an empty
result with a warning), splits the planning grid into `cores` contiguous
chunks with `np.array_split`, applies `calculate` to every chunk through
the process pool, and extends one flat list with the per-chunk results. -/
def calculate_overlap (a : Finset α → ℚ) (hl : Finset α → Finset α)
    (cores : ℕ) (planning_grid : List (PUCell α))
    (cons_layers : List (List (Feature α))) :
    List String × List (List OverlapRecord) :=
  if cons_layers.length = 0 then
    (["No conservation feature layers loaded."], [])
  else if planning_grid.isEmpty then
    (["No planning unit grid loaded."], [])
  else
    (arraySplit planning_grid cores).foldr
      (fun chunk acc =>
        let r := calculate a hl chunk cons_layers
        (r.1 ++ acc.1, r.2 ++ acc.2))
      ([], [])

/-- The flat collection of overlap records carried by a result of
`calculate` / `calculate_overlap` (the caller concatenates the per-layer
tables with `pd.concat`). -/
def overlapRecords (res : List String × List (List OverlapRecord)) :
    List OverlapRecord :=
  res.2.flatten

/-! ## Overlap engine: fallible-backend model

The same two source functions, with the geometry backend's possible
failures made explicit: shapely/geopandas clip, intersection and area
computations can raise, `calculate` and `calculate_overlap` contain no
exception handling, and the process pool re-raises a worker's exception in
the caller.  `Except` threads that behaviour. -/

/-- The abstract geometry backend with fallible clip/intersection/area
primitives. -/
structure GeoOps (α ε : Type) where
  inter : Finset α → Finset α → Except ε (Finset α)
  area : Finset α → Except ε ℚ
  hull : Finset α → Finset α

/-- Fallible version of `clipCells`: the backend's intersection is applied
to every cell geometry; a failure propagates. -/
def clipCellsE {ε : Type} (ops : GeoOps α ε) :
    List (PUCell α) → Finset α → Except ε (List (PUCell α))
  | [], _ => .ok []
  | c :: cs, mask => do
    let g ← ops.inter c.geom mask
    let rest ← clipCellsE ops cs mask
    pure (if g.Nonempty then ⟨c.puid, g⟩ :: rest else rest)

/-- Fallible overlay of one cell against the features of a layer. -/
def featureRowsE {ε : Type} (ops : GeoOps α ε) (puid : ℕ) (g : Finset α) :
    List (Feature α) → Except ε (List OverlapRecord)
  | [] => .ok []
  | f :: fs => do
    let q ← ops.inter g f.geom
    if q.Nonempty then do
      let ar ← ops.area q
      let rest ← featureRowsE ops puid g fs
      pure (⟨puid, f.fid, roundHalfEven ar⟩ :: rest)
    else
      featureRowsE ops puid g fs

/-- Fallible version of `overlayRows`. -/
def overlayRowsE {ε : Type} (ops : GeoOps α ε) :
    List (PUCell α) → List (Feature α) → Except ε (List OverlapRecord)
  | [], _ => .ok []
  | c :: cs, L => do
    let rows ← featureRowsE ops c.puid c.geom L
    let rest ← overlayRowsE ops cs L
    pure (rows ++ rest)

/-- Embedding of `calculate` over the fallible backend: the source has no
try/except, so any backend failure propagates out of the unit of work. -/
def calculateE {ε : Type} (ops : GeoOps α ε) (planning_grid : List (PUCell α)) :
    List (List (Feature α)) → Except ε (List String × List (List OverlapRecord))
  | [] => .ok ([], [])
  | L :: Ls =>
    if L.isEmpty then do
      let rest ← calculateE ops planning_grid Ls
      pure ("Skipping empty conservation layer." :: rest.1, rest.2)
    else do
      let clipped ← clipCellsE ops planning_grid (layerMask ops.hull L)
      let rows ← overlayRowsE ops clipped L
      let rest ← calculateE ops planning_grid Ls
      pure (rest.1, rows :: rest.2)

/-- Embedding of `calculate_overlap` over the fallible backend: the guards
run before any geometric work; afterwards every chunk is processed by the
pool and a worker's exception is re-raised in the caller
(`pool.imap_unordered` re-raises when the failed result is consumed). -/
def calculate_overlapE {ε : Type} (ops : GeoOps α ε) (cores : ℕ)
    (planning_grid : List (PUCell α)) (cons_layers : List (List (Feature α))) :
    Except ε (List String × List (List OverlapRecord)) :=
  if cons_layers.length = 0 then
    .ok (["No conservation feature layers loaded."], [])
  else if planning_grid.isEmpty then
    .ok (["No planning unit grid loaded."], [])
  else do
    let results ← (arraySplit planning_grid cores).mapM
      (fun chunk => calculateE ops chunk cons_layers)
    pure (results.foldr (fun r acc => (r.1 ++ acc.1, r.2 ++ acc.2)) ([], []))

/-- An always-successful backend, for witnesses: intersection is set
intersection, `a` the area measure, `hl` the convex hull. -/
def okOps {ε : Type} (a : Finset α → ℚ) (hl : Finset α → Finset α) :
    GeoOps α ε where
  inter x y := .ok (x ∩ y)
  area g := .ok (a g)
  hull g := hl g

/-- A backend whose intersection fails exactly on the geometry `{0}`,
exhibiting a partition-level geometry failure in one unit of work. -/
def failOps : GeoOps ℤ Unit where
  inter x y := if x = {0} then .error () else .ok (x ∩ y)
  area g := .ok (g.card : ℚ)
  hull g := g

/-! ## Grid builder: data model (exact real arithmetic) -/

/-- The bounding box handed to `create_hexgrid` (`file.total_bounds` /
`area_geos.total_bounds`): four scalars, normalised inside the function
with min/max. -/
structure BBox where
  x0 : ℝ
  y0 : ℝ
  x1 : ℝ
  y1 : ℝ

/-- Embedding of `create_hexagon` (planning.py, lines 56-70): the hexagon
centred on `(x, y)` with circumradius `l`, vertices at 60° increments
starting at 0°. -/
noncomputable def create_hexagon (l x y : ℝ) : List (ℝ × ℝ) :=
  ((List.range 6).map (fun k => (60 * k : ℕ))).map (fun angle =>
    (x + Real.cos ((angle : ℝ) * Real.pi / 180) * l,
     y + Real.sin ((angle : ℝ) * Real.pi / 180) * l))

/-- Modelled from the shapely backend: the shoelace sum of a vertex list
(the polygon ring is closed implicitly, hence the cyclic rotation). -/
noncomputable def shoelace (ps : List (ℝ × ℝ)) : ℝ :=
  ((ps.zip (ps.rotate 1)).map
    (fun pq => pq.1.1 * pq.2.2 - pq.2.1 * pq.1.2)).sum

/-- Modelled from the shapely backend: `Polygon(...).area`, half the
absolute shoelace sum of the vertex ring. -/
noncomputable def polygonArea (ps : List (ℝ × ℝ)) : ℝ :=
  |shoelace ps| / 2

/-- Embedding of the edge-length derivation of `create_planning_unit_grid`
(planning.py, lines 181 and 238): `edge = sqrt(Area**2 / (3/2 * sqrt(3)))`. -/
noncomputable def hex_edge (Area : ℝ) : ℝ :=
  Real.sqrt (Area ^ 2 / (3 / 2 * Real.sqrt 3))

/-- `v_step` of `create_hexgrid`: vertical center-to-center spacing. -/
noncomputable def v_step (side : ℝ) : ℝ := Real.sqrt 3 * side

/-- `h_step` of `create_hexgrid`: horizontal center-to-center spacing. -/
noncomputable def h_step (side : ℝ) : ℝ := 1.5 * side

/-- `x_min` of `create_hexgrid`: `min(bbx[0], bbx[2])`. -/
noncomputable def x_min (b : BBox) : ℝ := min b.x0 b.x1

/-- `x_max` of `create_hexgrid`: `max(bbx[0], bbx[2])`. -/
noncomputable def x_max (b : BBox) : ℝ := max b.x0 b.x1

/-- `y_min` of `create_hexgrid`: `min(bbx[1], bbx[3])`. -/
noncomputable def y_min (b : BBox) : ℝ := min b.y0 b.y1

/-- `y_max` of `create_hexgrid`: `max(bbx[1], bbx[3])`. -/
noncomputable def y_max (b : BBox) : ℝ := max b.y0 b.y1

/-- `h_skip` of `create_hexgrid`: `ceil(x_min / h_step) - 1`. -/
noncomputable def h_skip (b : BBox) (side : ℝ) : ℤ :=
  ⌈x_min b / h_step side⌉ - 1

/-- `h_start` of `create_hexgrid`: `h_skip * h_step`, the x-coordinate of
the first column of hexagon centers. -/
noncomputable def h_start (b : BBox) (side : ℝ) : ℝ :=
  (h_skip b side : ℝ) * h_step side

/-- `v_skip` of `create_hexgrid`: `ceil(y_min / v_step) - 1`. -/
noncomputable def v_skip (b : BBox) (side : ℝ) : ℤ :=
  ⌈y_min b / v_step side⌉ - 1

/-- `v_start` of `create_hexgrid`: `v_skip * v_step`, the base starting
row y-coordinate. -/
noncomputable def v_start (b : BBox) (side : ℝ) : ℝ :=
  (v_skip b side : ℝ) * v_step side

/-- `h_end` of `create_hexgrid`: `x_max + h_step`. -/
noncomputable def h_end (b : BBox) (side : ℝ) : ℝ := x_max b + h_step side

/-- `v_end` of `create_hexgrid`: `y_max + v_step`. -/
noncomputable def v_end (b : BBox) (side : ℝ) : ℝ := y_max b + v_step side

/-- `v_start_array` of `create_hexgrid`, as a function of the (toggling)
index `v_start_idx`, taken modulo 2 as the source keeps it in `{0, 1}`. -/
noncomputable def v_start_array (b : BBox) (side : ℝ) (i : ℕ) : ℝ :=
  if v_start b side - v_step side / 2 < y_min b then
    if i % 2 = 0 then v_start b side + v_step side / 2 else v_start b side
  else
    if i % 2 = 0 then v_start b side - v_step side / 2 else v_start b side

/-- The initial `v_start_idx` of `create_hexgrid`:
`int(abs(h_skip) % 2)`. -/
noncomputable def v_start_idx0 (b : BBox) (side : ℝ) : ℕ :=
  (h_skip b side).natAbs % 2

/-- Number of iterations of the inner `while c_y < v_end` loop of
`create_hexgrid` when started at `c_y` (0 when the loop is not entered). -/
noncomputable def rowCount (b : BBox) (side : ℝ) (c_y : ℝ) : ℕ :=
  (⌈(v_end b side - c_y) / v_step side⌉).toNat

/-- Number of iterations of the outer `while c_x < h_end` loop of
`create_hexgrid` when started at `c_x` (0 when the loop is not entered). -/
noncomputable def colCountFrom (b : BBox) (side : ℝ) (c_x : ℝ) : ℕ :=
  (⌈(h_end b side - c_x) / h_step side⌉).toNat

/-- Number of columns emitted by `create_hexgrid`. -/
noncomputable def colCount (b : BBox) (side : ℝ) : ℕ :=
  colCountFrom b side (h_start b side)

/-- x-coordinate of the `j`-th column of `create_hexgrid`. -/
noncomputable def colX (b : BBox) (side : ℝ) (j : ℕ) : ℝ :=
  h_start b side + j * h_step side

/-- Starting y-coordinate of the `j`-th column of `create_hexgrid`:
the column's entry of `v_start_array`, toggling each column starting from
`v_start_idx0`. -/
noncomputable def colStartY (b : BBox) (side : ℝ) (j : ℕ) : ℝ :=
  v_start_array b side (v_start_idx0 b side + j)

/-- Embedding of `create_hexgrid` (planning.py, lines 73-118) in closed
form: the nested while loops with positive steps emit, column by column
(ascending x), the arithmetic progressions of centers; this closed form is
proved equal to the fuel-indexed loop embedding `create_hexgridF` below
(`create_hexgridF_eq`). -/
noncomputable def create_hexgrid (b : BBox) (side : ℝ) : List (ℝ × ℝ) :=
  (List.range (colCount b side)).flatMap (fun j =>
    (List.range (rowCount b side (colStartY b side j))).map (fun i : ℕ =>
      (colX b side j, colStartY b side j + (i : ℝ) * v_step side)))

/-- The inner `while c_y < v_end: grid.append((c_x, c_y)); c_y += v_step`
loop of `create_hexgrid`, indexed by fuel (`none` = fuel exhausted before
the loop finished). -/
noncomputable def colFuel (vEnd vStep : ℝ) : ℕ → ℝ → Option (List ℝ)
  | 0, c_y => if c_y < vEnd then none else some []
  | n + 1, c_y =>
    if c_y < vEnd then
      (colFuel vEnd vStep n (c_y + vStep)).map (fun ys => c_y :: ys)
    else some []

/-- The outer `while c_x < h_end` loop of `create_hexgrid`, indexed by
fuel: runs the inner loop from the pending `c_y`, then advances `c_x` by
`h_step`, resets `c_y` from `v_start_array` and toggles the index. -/
noncomputable def gridFuel (b : BBox) (side : ℝ) (fI : ℕ) :
    ℕ → ℝ → ℝ → ℕ → Option (List (ℝ × ℝ))
  | 0, c_x, _, _ => if c_x < h_end b side then none else some []
  | fO + 1, c_x, c_y, idx =>
    if c_x < h_end b side then
      match colFuel (v_end b side) (v_step side) fI c_y with
      | none => none
      | some ys =>
        match gridFuel b side fI fO (c_x + h_step side)
            (v_start_array b side idx) (idx + 1) with
        | none => none
        | some rest => some ((ys.map (fun y => (c_x, y))) ++ rest)
    else some []

/-- Embedding of `create_hexgrid` as the literal pair of while loops with
fuel: starts at `h_start` with `c_y = v_start_array[v_start_idx]` and the
index already toggled once, exactly as in the source. -/
noncomputable def create_hexgridF (b : BBox) (side : ℝ) (fO fI : ℕ) :
    Option (List (ℝ × ℝ)) :=
  gridFuel b side fI fO (h_start b side)
    (v_start_array b side (v_start_idx0 b side)) (v_start_idx0 b side + 1)

/-- A cell of the planning-unit grid GeoDataFrame: hexagon geometry plus
the `PUID` column. -/
structure PlanningCellR where
  geometry : List (ℝ × ℝ)
  PUID : ℕ

/-- Embedding of the grid-building path of `create_planning_unit_grid`
(planning.py, lines 181-189 and 238-247): derive the edge length from the
requested cell area, generate the hexagon centers, build one hexagon per
center, and assign `PUID = index + 1` in production order. -/
noncomputable def create_planning_unit_grid (box : BBox) (Area : ℝ) :
    List PlanningCellR :=
  ((create_hexgrid box (hex_edge Area)).enum).map (fun ic =>
    ⟨create_hexagon (hex_edge Area) ic.2.1 ic.2.2, ic.1 + 1⟩)

/-- Stated from the spec's words, for the comparison in claim C6: "the
largest multiple of `h_step` at or below `xmin`, minus one step". -/
noncomputable def claimed_h_start (b : BBox) (side : ℝ) : ℝ :=
  (⌊x_min b / h_step side⌋ : ℝ) * h_step side - h_step side

/-- Strict column-major ordering of centers: strictly ascending x, and
strictly ascending y within a column. -/
def centerLT (p q : ℝ × ℝ) : Prop :=
  p.1 < q.1 ∨ (p.1 = q.1 ∧ p.2 < q.2)

/-! ## Theorems -/

/-- Claim C3: if the layer list is empty or the planning grid is empty,
`calculate_overlap` returns an empty collection, reports the condition
non-fatally through a warning, and never raises — for any behaviour of the
geometry backend, since the guards run before any geometric work. -/
theorem calculate_overlapE_empty_inputs {α ε : Type} [DecidableEq α]
    (ops : GeoOps α ε) (cores : ℕ) (planning_grid : List (PUCell α))
    (cons_layers : List (List (Feature α)))
    (h : cons_layers = [] ∨ planning_grid = []) :
    ∃ w : List String,
      calculate_overlapE ops cores planning_grid cons_layers = .ok (w, []) ∧
        w ≠ [] := by
  rcases h with h | h
  · subst h
    exact ⟨_, rfl, by simp⟩
  · subst h
    by_cases hL : cons_layers = []
    · subst hL
      exact ⟨_, rfl, by simp⟩
    · refine ⟨["No planning unit grid loaded."], ?_, by simp⟩
      have hlen : cons_layers.length ≠ 0 := by
        simpa [List.length_eq_zero] using hL
      simp [calculate_overlapE, hlen]

/-- Witness for `calculate_overlapE_empty_inputs` at a concrete input:
an empty layer list with a non-empty grid. -/
theorem calculate_overlapE_empty_inputs_witness :
    (([] : List (List (Feature ℤ))) = [] ∨ ([⟨1, {0}⟩] : List (PUCell ℤ)) = []) ∧
    ∃ w : List String,
      calculate_overlapE (okOps (ε := Unit) (fun g => (g.card : ℚ)) id) 4
          [⟨1, {0}⟩] [] = .ok (w, []) ∧ w ≠ [] :=
  ⟨Or.inl rfl,
    calculate_overlapE_empty_inputs (okOps (fun g => (g.card : ℚ)) id) 4
      [⟨1, {0}⟩] [] (Or.inl rfl)⟩

/-- Claim C5 (code bug): `calculate` and `calculate_overlap` contain no
exception handling, so a clip/intersection failure in one (partition,
layer) unit of work aborts the entire computation: with two partitions,
a failing intersection in the first makes `calculate_overlap` raise, even
though the sibling partition on its own would have produced a record. -/
theorem calculate_overlapE_failure_aborts :
    calculate_overlapE failOps 2 [⟨1, {0}⟩, ⟨2, {5}⟩] [[⟨7, {5}⟩]] =
      .error () ∧
    calculateE failOps [⟨2, {5}⟩] [[⟨7, {5}⟩]] = .ok ([], [[⟨2, 7, 1⟩]]) := by
  constructor
  · rfl
  · have hr : roundHalfEven (1 : ℚ) = 1 := by
      unfold roundHalfEven
      norm_num
    simp [calculateE, clipCellsE, featureRowsE, overlayRowsE, layerMask,
      failOps, Bind.bind, Except.bind, pure, Except.pure, hr]

/-- The shoelace sum of the hexagon produced by `create_hexagon` is
`3 * sqrt 3 * l ^ 2`, independently of the center. -/
theorem shoelace_create_hexagon (l x y : ℝ) :
    shoelace (create_hexagon l x y) = 3 * Real.sqrt 3 * l ^ 2 := by
  have a4 : ((240 : ℝ)) * Real.pi / 180 = -(Real.pi - Real.pi / 3) + 2 * Real.pi := by
    ring
  have a5 : ((300 : ℝ)) * Real.pi / 180 = -(Real.pi / 3) + 2 * Real.pi := by ring
  have c13 : Real.cos (Real.pi * (1 / 3)) = 1 / 2 := by
    rw [show Real.pi * (1 / 3) = Real.pi / 3 by ring, Real.cos_pi_div_three]
  have s13 : Real.sin (Real.pi * (1 / 3)) = Real.sqrt 3 / 2 := by
    rw [show Real.pi * (1 / 3) = Real.pi / 3 by ring, Real.sin_pi_div_three]
  have c23 : Real.cos (Real.pi * (2 / 3)) = -(1 / 2) := by
    rw [show Real.pi * (2 / 3) = Real.pi - Real.pi / 3 by ring, Real.cos_pi_sub,
      Real.cos_pi_div_three]
  have s23 : Real.sin (Real.pi * (2 / 3)) = Real.sqrt 3 / 2 := by
    rw [show Real.pi * (2 / 3) = Real.pi - Real.pi / 3 by ring, Real.sin_pi_sub,
      Real.sin_pi_div_three]
  unfold create_hexagon shoelace
  norm_num [List.range_succ, List.rotate]
  rw [a4, a5]
  simp [Real.cos_pi_sub, Real.sin_pi_sub, Real.cos_add_two_pi,
    Real.sin_add_two_pi, Real.cos_neg, Real.sin_neg, Real.cos_pi_div_three,
    Real.sin_pi_div_three]
  ring_nf
  rw [c13, s13, c23, s23]
  ring

/-- The area of the hexagon produced by `create_hexagon` is the regular
hexagon area `(3 sqrt 3 / 2) l²`. -/
theorem polygonArea_create_hexagon (l x y : ℝ) :
    polygonArea (create_hexagon l x y) = 3 * Real.sqrt 3 * l ^ 2 / 2 := by
  unfold polygonArea
  rw [shoelace_create_hexagon, abs_of_nonneg (by positivity)]

/-- Claim C1 (code bug): `create_planning_unit_grid` derives the edge as
`sqrt(Area² / (3/2 · sqrt 3))`, squaring the area, so every hexagon it
builds with `create_hexagon` has 6 vertices but area `Area ^ 2` instead of
the requested `Area` (at the failing input `Area = 4` the emitted hexagons
have area 16). -/
theorem create_hexagon_area_squared (Area x y : ℝ) :
    (create_hexagon (hex_edge Area) x y).length = 6 ∧
    polygonArea (create_hexagon (hex_edge Area) x y) = Area ^ 2 := by
  refine ⟨rfl, ?_⟩
  rw [polygonArea_create_hexagon]
  unfold hex_edge
  rw [Real.sq_sqrt (by positivity)]
  have h3 : (0 : ℝ) < Real.sqrt 3 := Real.sqrt_pos.mpr (by norm_num)
  field_simp

/-- Every cell emitted by `create_planning_unit_grid` carries a hexagon
built by `create_hexagon` at the derived edge length. -/
theorem create_planning_unit_grid_cells (box : BBox) (Area : ℝ)
    (cell : PlanningCellR) (h : cell ∈ create_planning_unit_grid box Area) :
    ∃ x y, cell.geometry = create_hexagon (hex_edge Area) x y := by
  unfold create_planning_unit_grid at h
  obtain ⟨⟨i, c⟩, _, rfl⟩ := List.mem_map.mp h
  exact ⟨c.1, c.2, rfl⟩

/-- Claim C6 counterexample: for the bounding box (1, 0, 2, 2) and edge
length 1 (`h_step = 1.5`), the source's starting column is `0`, the
largest multiple of `h_step` at or below `x_min = 1` with no extra step,
whereas the claim demands that multiple minus one step, `-1.5`. -/
theorem h_start_ne_claimed :
    h_start ⟨1, 0, 2, 2⟩ 1 ≠ claimed_h_start ⟨1, 0, 2, 2⟩ 1 := by
  have hx : x_min ⟨1, 0, 2, 2⟩ = 1 := by
    simp [x_min]
  have hh : h_step (1 : ℝ) = 1.5 := by
    norm_num [h_step]
  have hc : (⌈(1 : ℝ) / 1.5⌉ : ℤ) = 1 := by
    rw [Int.ceil_eq_iff] <;> norm_num
  have hf : (⌊(1 : ℝ) / 1.5⌋ : ℤ) = 0 := by
    rw [Int.floor_eq_iff] <;> norm_num
  unfold h_start claimed_h_start h_skip
  rw [hx, hh, hc, hf]
  norm_num

/-- For a positive step `s`, `(⌈q/s⌉ - 1) * s` is a multiple of `s` lying
strictly below `q` and within one step of it: it is the largest multiple
of `s` strictly below `q`. -/
theorem ceil_sub_one_mul (q s : ℝ) (hs : 0 < s) :
    ((⌈q / s⌉ - 1 : ℤ) : ℝ) * s < q ∧ q ≤ ((⌈q / s⌉ - 1 : ℤ) : ℝ) * s + s := by
  have hne : s ≠ 0 := ne_of_gt hs
  constructor
  · have h1 : ((⌈q / s⌉ - 1 : ℤ) : ℝ) < q / s := by
      push_cast
      have := Int.ceil_lt_add_one (q / s)
      linarith
    calc ((⌈q / s⌉ - 1 : ℤ) : ℝ) * s < (q / s) * s := by
          exact mul_lt_mul_of_pos_right h1 hs
      _ = q := by field_simp
  · have h2 : q / s ≤ (⌈q / s⌉ : ℝ) := Int.le_ceil _
    have h3 : (q / s) * s ≤ (⌈q / s⌉ : ℝ) * s :=
      mul_le_mul_of_nonneg_right h2 (le_of_lt hs)
    rw [div_mul_cancel₀ _ hne] at h3
    push_cast
    linarith

/-- Claim C6 (amended): the first column's x-coordinate is the largest
multiple of `h_step` *strictly below* `xmin` (this equals "the largest
multiple at or below `xmin` minus one step" only when `xmin` is itself a
multiple of `h_step`), and symmetrically the base starting row `v_start`
is the largest multiple of `v_step` strictly below `ymin`; both therefore
lie strictly below the box's minima, within one step of them. -/
theorem hexgrid_start_amended (b : BBox) (side : ℝ) (h : 0 < side) :
    (∃ k : ℤ, h_start b side = (k : ℝ) * h_step side) ∧
    h_start b side < x_min b ∧ x_min b ≤ h_start b side + h_step side ∧
    (∃ k : ℤ, v_start b side = (k : ℝ) * v_step side) ∧
    v_start b side < y_min b ∧ y_min b ≤ v_start b side + v_step side := by
  have hh : 0 < h_step side := by
    unfold h_step; positivity
  have hv : 0 < v_step side := by
    unfold v_step; positivity
  have H := ceil_sub_one_mul (x_min b) (h_step side) hh
  have V := ceil_sub_one_mul (y_min b) (v_step side) hv
  refine ⟨⟨h_skip b side, rfl⟩, ?_, ?_, ⟨v_skip b side, rfl⟩, ?_, ?_⟩
  · unfold h_start h_skip
    exact H.1
  · unfold h_start h_skip
    exact H.2
  · unfold v_start v_skip
    exact V.1
  · unfold v_start v_skip
    exact V.2

/-- Witness for `hexgrid_start_amended` at the bounding box (0, 0, 1, 1)
with edge length 1. -/
theorem hexgrid_start_amended_witness :
    (0 : ℝ) < 1 ∧
    ((∃ k : ℤ, h_start ⟨0, 0, 1, 1⟩ 1 = (k : ℝ) * h_step 1) ∧
      h_start ⟨0, 0, 1, 1⟩ 1 < x_min ⟨0, 0, 1, 1⟩ ∧
      x_min ⟨0, 0, 1, 1⟩ ≤ h_start ⟨0, 0, 1, 1⟩ 1 + h_step 1 ∧
      (∃ k : ℤ, v_start ⟨0, 0, 1, 1⟩ 1 = (k : ℝ) * v_step 1) ∧
      v_start ⟨0, 0, 1, 1⟩ 1 < y_min ⟨0, 0, 1, 1⟩ ∧
      y_min ⟨0, 0, 1, 1⟩ ≤ v_start ⟨0, 0, 1, 1⟩ 1 + v_step 1) :=
  ⟨by norm_num, hexgrid_start_amended ⟨0, 0, 1, 1⟩ 1 (by norm_num)⟩

/-- The PUID column of `create_planning_unit_grid` is the sequence 1..N
in production order. -/
theorem puid_map_range' (box : BBox) (Area : ℝ) :
    (create_planning_unit_grid box Area).map (fun c => c.PUID) =
      List.range' 1 (create_hexgrid box (hex_edge Area)).length := by
  unfold create_planning_unit_grid
  rw [List.map_map]
  have h1 : ((fun c : PlanningCellR => c.PUID) ∘
      (fun ic : ℕ × (ℝ × ℝ) =>
        (⟨create_hexagon (hex_edge Area) ic.2.1 ic.2.2, ic.1 + 1⟩ :
          PlanningCellR))) = (fun n => n + 1) ∘ Prod.fst := rfl
  rw [h1, ← List.map_map, List.enum_map_fst, List.range'_eq_map_range]
  exact List.map_congr_left (fun a _ => Nat.add_comm a 1)

/-- Claim C8: the PUID column of the grid produced by
`create_planning_unit_grid` is exactly the dense sequence 1..N in order,
with no duplicates. -/
theorem create_planning_unit_grid_puids (box : BBox) (Area : ℝ) :
    (create_planning_unit_grid box Area).map (fun c => c.PUID) =
      List.range' 1 (create_hexgrid box (hex_edge Area)).length ∧
    ((create_planning_unit_grid box Area).map (fun c => c.PUID)).Nodup :=
  ⟨puid_map_range' box Area,
    (puid_map_range' box Area) ▸ List.nodup_range' 1 _⟩

/-- Unfolding `calculate` one layer at a time. -/
theorem calculate_cons (a : Finset α → ℚ) (hl : Finset α → Finset α)
    (planning_grid : List (PUCell α)) (L : List (Feature α))
    (Ls : List (List (Feature α))) :
    calculate a hl planning_grid (L :: Ls) =
      if L.isEmpty then
        ("Skipping empty conservation layer." ::
          (calculate a hl planning_grid Ls).1,
          (calculate a hl planning_grid Ls).2)
      else ((calculate a hl planning_grid Ls).1,
        overlayRows a (clipCells planning_grid (layerMask hl L)) L ::
          (calculate a hl planning_grid Ls).2) := by
  unfold calculate
  rw [List.foldr_cons]

/-- The per-layer tables of `calculate`: one table per non-empty layer,
in layer order. -/
theorem calculate_snd (a : Finset α → ℚ) (hl : Finset α → Finset α)
    (planning_grid : List (PUCell α)) (cons_layers : List (List (Feature α))) :
    (calculate a hl planning_grid cons_layers).2 =
      cons_layers.filterMap (fun L =>
        if L.isEmpty then none
        else some (overlayRows a (clipCells planning_grid (layerMask hl L)) L)) := by
  induction cons_layers with
  | nil => rfl
  | cons L Ls ih =>
    rw [calculate_cons, List.filterMap_cons]
    by_cases hL : L.isEmpty
    · simp [hL, ih]
    · simp [hL, ih]

/-- Every feature's geometry is contained in the layer's clip mask, the
union of the per-feature convex hulls, provided the backend's hull
contains its argument. -/
theorem subset_layerMask (hl : Finset α → Finset α)
    (hhull : ∀ g : Finset α, g ⊆ hl g) (L : List (Feature α))
    (f : Feature α) (hf : f ∈ L) : f.geom ⊆ layerMask hl L := by
  induction L with
  | nil => cases hf
  | cons g Ls ih =>
    rcases List.mem_cons.mp hf with rfl | hf
    · exact subset_trans (hhull f.geom) (Finset.subset_union_left)
    · exact subset_trans (ih hf) (Finset.subset_union_right)

/-- For any mask containing every feature of the layer, clipping the cells
to the mask before overlaying changes nothing: the emitted rows are the
rows of the direct cell-by-feature intersection. -/
theorem overlayRows_clipCells_eq_direct (a : Finset α → ℚ) (mask : Finset α)
    (L : List (Feature α)) (hsub : ∀ f ∈ L, f.geom ⊆ mask)
    (planning_grid : List (PUCell α)) :
    overlayRows a (clipCells planning_grid mask) L =
      directRows a planning_grid L := by
  induction planning_grid with
  | nil => rfl
  | cons c cs ih =>
    unfold clipCells at *
    rw [List.filterMap_cons]
    by_cases hN : (c.geom ∩ mask).Nonempty
    · simp only [hN, if_pos]
      unfold overlayRows directRows at *
      rw [List.flatMap_cons, List.flatMap_cons, ih]
      congr 1
      refine List.filterMap_congr (fun f hf => ?_)
      have hm : (c.geom ∩ mask) ∩ f.geom = c.geom ∩ f.geom := by
        rw [Finset.inter_assoc, Finset.inter_eq_right.mpr (hsub f hf)]
      simp only [hm]
    · simp only [hN, if_neg, not_false_iff]
      unfold overlayRows directRows at *
      rw [List.flatMap_cons, ih]
      have hz : (L.filterMap (fun f =>
          if (c.geom ∩ f.geom).Nonempty then
            some (⟨c.puid, f.fid, roundHalfEven (a (c.geom ∩ f.geom))⟩ :
              OverlapRecord)
          else none)) = [] := by
        rw [List.filterMap_eq_nil]
        intro f _
        have hsubf : c.geom ∩ f.geom ⊆ c.geom ∩ mask :=
          Finset.inter_subset_inter (subset_refl _) (hsub f ‹f ∈ L›)
        have : ¬(c.geom ∩ f.geom).Nonempty := by
          rw [Finset.not_nonempty_iff_eq_empty] at hN ⊢
          exact Finset.subset_empty.mp (hN ▸ hsubf)
        simp [this]
      rw [hz]
      rfl

/-- Claim C4: the convex-hull pre-filter is recall-preserving: whenever
the backend's convex hull contains its argument, the per-layer tables
emitted by `calculate` (which clips the partition to the layer's hulls
before overlaying) are exactly, pair for pair and area for area, the
tables of the direct cell-by-feature intersection with no pre-filter. -/
theorem calculate_prefilter_eq_direct (a : Finset α → ℚ)
    (hl : Finset α → Finset α) (partition : List (PUCell α))
    (cons_layers : List (List (Feature α)))
    (hhull : ∀ g : Finset α, g ⊆ hl g) :
    (calculate a hl partition cons_layers).2 =
      cons_layers.filterMap (fun L =>
        if L.isEmpty then none else some (directRows a partition L)) := by
  rw [calculate_snd]
  refine List.filterMap_congr (fun L _ => ?_)
  by_cases hL : L.isEmpty
  · simp [hL]
  · simp only [hL, if_neg, Bool.false_eq_true, not_false_iff]
    rw [overlayRows_clipCells_eq_direct a (layerMask hl L) L
      (fun f hf => subset_layerMask hl hhull L f hf) partition]

/-- Witness for `calculate_prefilter_eq_direct` with the identity hull on
a one-cell partition and a one-feature layer. -/
theorem calculate_prefilter_eq_direct_witness :
    (∀ g : Finset ℤ, g ⊆ id g) ∧
    (calculate (fun g => (g.card : ℚ)) id [⟨1, {0}⟩] [[⟨5, {0}⟩]]).2 =
      [[⟨5, ({0} : Finset ℤ)⟩]].filterMap (fun L =>
        if L.isEmpty then none
        else some (directRows (fun g => (g.card : ℚ)) [⟨1, {0}⟩] L)) :=
  ⟨fun g => subset_refl g,
    calculate_prefilter_eq_direct (fun g => (g.card : ℚ)) id [⟨1, {0}⟩]
      [[⟨5, {0}⟩]] (fun g => subset_refl g)⟩

/-- `np.array_split` into zero parts gives no parts. -/
theorem arraySplit_zero {β : Type} (l : List β) : arraySplit l 0 = [] := rfl

/-- `np.array_split` into `n + 1` parts is a partition: concatenating the
parts restores the list. -/
theorem arraySplit_succ_flatten {β : Type} (n : ℕ) :
    ∀ l : List β, (arraySplit l (n + 1)).flatten = l := by
  induction n with
  | zero =>
    intro l
    unfold arraySplit
    simp [Nat.mod_one, arraySplit_zero]
  | succ m ih =>
    intro l
    unfold arraySplit
    rw [List.flatten_cons, ih, List.take_append_drop]

/-- `np.array_split` into one part returns the whole list. -/
theorem arraySplit_one {β : Type} (l : List β) : arraySplit l 1 = [l] := by
  unfold arraySplit
  simp [Nat.mod_one, arraySplit_zero]

/-- Concatenating the parts of `np.array_split` restores the list, for any
positive part count. -/
theorem arraySplit_flatten {β : Type} (cores : ℕ) (hc : 1 ≤ cores)
    (l : List β) : (arraySplit l cores).flatten = l := by
  cases cores with
  | zero => cases hc
  | succ m => exact arraySplit_succ_flatten m l

/-- The reduction step of `calculate_overlap`: the second component of the
extend-fold is the concatenation of the per-chunk table lists. -/
theorem foldr_extend_snd {β : Type}
    (g : β → List String × List (List OverlapRecord)) (l : List β) :
    (l.foldr (fun chunk acc => ((g chunk).1 ++ acc.1, (g chunk).2 ++ acc.2))
      ([], [])).2 = (l.map (fun chunk => (g chunk).2)).flatten := by
  induction l with
  | nil => rfl
  | cons x xs ih => simp [ih]

/-- Outside the guards, the table list of `calculate_overlap` is the
concatenation of the per-chunk results of `calculate`. -/
theorem calculate_overlap_snd (a : Finset α → ℚ) (hl : Finset α → Finset α)
    (cores : ℕ) (planning_grid : List (PUCell α))
    (cons_layers : List (List (Feature α))) (hL : cons_layers.length ≠ 0)
    (hg : planning_grid.isEmpty = false) :
    (calculate_overlap a hl cores planning_grid cons_layers).2 =
      ((arraySplit planning_grid cores).map
        (fun chunk => (calculate a hl chunk cons_layers).2)).flatten := by
  unfold calculate_overlap
  rw [if_neg hL, if_neg (by simp [hg])]
  exact foldr_extend_snd (fun chunk => calculate a hl chunk cons_layers) _

/-- The multiset of a concatenation is the sum of the multisets. -/
theorem ofList_flatten {β : Type} (ls : List (List β)) :
    Multiset.ofList ls.flatten = (ls.map Multiset.ofList).sum := by
  induction ls with
  | nil => rfl
  | cons l ls ih =>
    rw [List.flatten_cons, List.map_cons, List.sum_cons, ← ih,
      Multiset.coe_add]

/-- Summing a constant-zero map of multisets gives zero. -/
theorem sum_map_zero {γ δ : Type} (l : List γ) :
    (l.map (fun _ => (0 : Multiset δ))).sum = 0 := by
  induction l with
  | nil => rfl
  | cons x xs ih => simp [ih]

/-- Pointwise addition distributes over a sum of multiset maps. -/
theorem sum_map_add {γ δ : Type} (l : List γ) (f g : γ → Multiset δ) :
    (l.map (fun x => f x + g x)).sum = (l.map f).sum + (l.map g).sum := by
  induction l with
  | nil => simp
  | cons x xs ih =>
    simp only [List.map_cons, List.sum_cons, ih]
    abel

/-- Exchange of a finite double sum of multisets. -/
theorem sum_map_comm {β γ δ : Type} (bs : List β) (cs : List γ)
    (f : β → γ → Multiset δ) :
    (bs.map (fun b => (cs.map (fun c => f b c)).sum)).sum =
      (cs.map (fun c => (bs.map (fun b => f b c)).sum)).sum := by
  induction bs with
  | nil => simp [sum_map_zero]
  | cons b bs ih =>
    simp only [List.map_cons, List.sum_cons]
    rw [ih,
      sum_map_add cs (fun c => f b c) (fun c => (bs.map (fun b2 => f b2 c)).sum)]

/-- `overlayRows` after `clipCells` decomposes cell by cell. -/
theorem overlayRows_clipCells_flatMap (a : Finset α → ℚ) (mask : Finset α)
    (L : List (Feature α)) (planning_grid : List (PUCell α)) :
    overlayRows a (clipCells planning_grid mask) L =
      planning_grid.flatMap (cellRows a mask L) := by
  induction planning_grid with
  | nil => rfl
  | cons c cs ih =>
    unfold clipCells at *
    rw [List.flatMap_cons]
    rw [List.filterMap_cons]
    by_cases hN : (c.geom ∩ mask).Nonempty
    · simp only [hN, if_pos]
      unfold overlayRows at *
      rw [List.flatMap_cons, ih]
      unfold cellRows
      simp [hN]
    · simp only [hN, if_neg, not_false_iff]
      rw [ih]
      unfold cellRows
      simp [hN]

/-- Multisets of per-chunk flat-mapped rows sum to the flat-mapped rows of
the concatenation. -/
theorem sum_map_ofList_flatMap {β γ : Type} (chunks : List (List β))
    (h : β → List γ) :
    (chunks.map (fun c => Multiset.ofList (c.flatMap h))).sum =
      Multiset.ofList (chunks.flatten.flatMap h) := by
  induction chunks with
  | nil => rfl
  | cons c cs ih =>
    rw [List.map_cons, List.sum_cons, ih, List.flatten_cons,
      List.flatMap_append, Multiset.coe_add]

/-- The multiset of a filter-mapped optional table list, as a sum over all
entries with zero for the skipped ones. -/
theorem sum_ofList_filterMap_ite {β γ : Type} (p : β → Bool) (d : β → List γ)
    (l : List β) :
    ((l.filterMap (fun x => if p x then none else some (d x))).map
      Multiset.ofList).sum =
      (l.map (fun x =>
        if p x then (0 : Multiset γ) else Multiset.ofList (d x))).sum := by
  induction l with
  | nil => rfl
  | cons x xs ih =>
    rw [List.filterMap_cons]
    by_cases hp : p x
    · simp only [hp, if_pos, List.map_cons, List.sum_cons]
      rw [ih]
      simp
    · simp only [hp, if_neg, Bool.false_eq_true, not_false_iff,
        List.map_cons, List.sum_cons]
      rw [ih]

/-- The record multiset of one invocation of `calculate`, as a sum over
layers of per-cell contributions. -/
theorem ofList_calculate_records (a : Finset α → ℚ)
    (hl : Finset α → Finset α) (planning_grid : List (PUCell α))
    (cons_layers : List (List (Feature α))) :
    Multiset.ofList (calculate a hl planning_grid cons_layers).2.flatten =
      (cons_layers.map (fun L =>
        if L.isEmpty then (0 : Multiset OverlapRecord)
        else Multiset.ofList
          (planning_grid.flatMap (cellRows a (layerMask hl L) L)))).sum := by
  rw [calculate_snd, ofList_flatten,
    sum_ofList_filterMap_ite (fun L => L.isEmpty)
      (fun L => overlayRows a (clipCells planning_grid (layerMask hl L)) L)]
  refine congrArg List.sum (List.map_congr_left (fun L _ => ?_))
  by_cases hL : L.isEmpty
  · simp [hL]
  · simp only [hL, Bool.false_eq_true, if_false]
    rw [overlayRows_clipCells_flatMap]

/-- Outside the guards, the record multiset of `calculate_overlap` does
not depend on the worker count: it is the layer-by-layer sum of the whole
grid's per-cell contributions. -/
theorem records_normal_form (a : Finset α → ℚ) (hl : Finset α → Finset α)
    (cores : ℕ) (planning_grid : List (PUCell α))
    (cons_layers : List (List (Feature α))) (hc : 1 ≤ cores)
    (hL : cons_layers.length ≠ 0) (hg : planning_grid.isEmpty = false) :
    Multiset.ofList
        (overlapRecords (calculate_overlap a hl cores planning_grid cons_layers)) =
      (cons_layers.map (fun L =>
        if L.isEmpty then (0 : Multiset OverlapRecord)
        else Multiset.ofList
          (planning_grid.flatMap (cellRows a (layerMask hl L) L)))).sum := by
  unfold overlapRecords
  rw [calculate_overlap_snd a hl cores planning_grid cons_layers hL hg,
    List.flatten_flatten, List.map_map, ofList_flatten, List.map_map]
  have step : ∀ c : List (PUCell α),
      Multiset.ofList (calculate a hl c cons_layers).2.flatten =
      (cons_layers.map (fun L =>
        if L.isEmpty then (0 : Multiset OverlapRecord)
        else Multiset.ofList
          (c.flatMap (cellRows a (layerMask hl L) L)))).sum :=
    fun c => ofList_calculate_records a hl c cons_layers
  rw [show (Multiset.ofList ∘ List.flatten ∘
      fun chunk => (calculate a hl chunk cons_layers).2) =
      (fun chunk => Multiset.ofList (calculate a hl chunk cons_layers).2.flatten)
    from rfl]
  rw [List.map_congr_left (fun c _ => step c), sum_map_comm]
  refine congrArg List.sum (List.map_congr_left (fun L _ => ?_))
  by_cases hLe : L.isEmpty
  · simp [hLe, sum_map_zero]
  · simp only [hLe, Bool.false_eq_true, if_false]
    rw [sum_map_ofList_flatMap, arraySplit_flatten cores hc]

/-- Claim C2: for every grid and list of layers, `calculate_overlap` with
one worker and with any worker count `k ≥ 1` produces the same multiset of
overlap records: partitioning the grid with `np.array_split` does not
change the set of emitted records (only their order may differ). -/
theorem calculate_overlap_workers_eq (a : Finset α → ℚ)
    (hl : Finset α → Finset α) (planning_grid : List (PUCell α))
    (cons_layers : List (List (Feature α))) (k : ℕ) (hk : 1 ≤ k) :
    Multiset.ofList
        (overlapRecords (calculate_overlap a hl 1 planning_grid cons_layers)) =
      Multiset.ofList
        (overlapRecords (calculate_overlap a hl k planning_grid cons_layers)) := by
  by_cases hL : cons_layers.length = 0
  · unfold calculate_overlap overlapRecords
    rw [if_pos hL, if_pos hL]
  · by_cases hg : planning_grid.isEmpty
    · unfold calculate_overlap overlapRecords
      rw [if_neg hL, if_neg hL, if_pos hg, if_pos hg]
    · have hg' : planning_grid.isEmpty = false := by
        revert hg
        cases planning_grid.isEmpty
        · simp
        · simp
      rw [records_normal_form a hl 1 planning_grid cons_layers le_rfl hL hg',
        records_normal_form a hl k planning_grid cons_layers hk hL hg']

/-- Witness for `calculate_overlap_workers_eq`: a three-cell grid, one
layer, two workers. -/
theorem calculate_overlap_workers_eq_witness :
    1 ≤ 2 ∧
    Multiset.ofList
        (overlapRecords (calculate_overlap (fun g => (g.card : ℚ)) id 1
          ([⟨1, {0}⟩, ⟨2, {1}⟩, ⟨3, {2}⟩] : List (PUCell ℤ)) [[⟨5, {0, 2}⟩]])) =
      Multiset.ofList
        (overlapRecords (calculate_overlap (fun g => (g.card : ℚ)) id 2
          ([⟨1, {0}⟩, ⟨2, {1}⟩, ⟨3, {2}⟩] : List (PUCell ℤ)) [[⟨5, {0, 2}⟩]])) :=
  ⟨by norm_num,
    calculate_overlap_workers_eq (fun g => (g.card : ℚ)) id
      [⟨1, {0}⟩, ⟨2, {1}⟩, ⟨3, {2}⟩] [[⟨5, {0, 2}⟩]] 2 (by norm_num)⟩

/-- When every feature of the layer is contained in the mask, the per-cell
contribution of the clipped overlay equals the direct per-cell overlay. -/
theorem cellRows_eq_direct (a : Finset α → ℚ) (mask : Finset α)
    (L : List (Feature α)) (hsub : ∀ f ∈ L, f.geom ⊆ mask) (c : PUCell α) :
    cellRows a mask L c = L.filterMap (fun f =>
      if (c.geom ∩ f.geom).Nonempty then
        some ⟨c.puid, f.fid, roundHalfEven (a (c.geom ∩ f.geom))⟩
      else none) := by
  have h1 := overlayRows_clipCells_eq_direct a mask L hsub [c]
  rw [overlayRows_clipCells_flatMap] at h1
  simpa [directRows] using h1

/-- Under the convex-hull containment property, the record multiset of
`calculate_overlap` is the layer-by-layer sum of the direct (unfiltered)
cell-by-feature overlays. -/
theorem records_direct_form (a : Finset α → ℚ) (hl : Finset α → Finset α)
    (cores : ℕ) (planning_grid : List (PUCell α))
    (cons_layers : List (List (Feature α))) (hc : 1 ≤ cores)
    (hL : cons_layers.length ≠ 0) (hg : planning_grid.isEmpty = false)
    (hhull : ∀ g : Finset α, g ⊆ hl g) :
    Multiset.ofList
        (overlapRecords (calculate_overlap a hl cores planning_grid cons_layers)) =
      (cons_layers.map (fun L =>
        if L.isEmpty then (0 : Multiset OverlapRecord)
        else Multiset.ofList (directRows a planning_grid L))).sum := by
  rw [records_normal_form a hl cores planning_grid cons_layers hc hL hg]
  refine congrArg List.sum (List.map_congr_left (fun L _ => ?_))
  by_cases hLe : L.isEmpty
  · simp [hLe]
  · simp only [hLe, Bool.false_eq_true, if_false]
    rw [← overlayRows_clipCells_flatMap,
      overlayRows_clipCells_eq_direct a (layerMask hl L) L
        (fun f hf => subset_layerMask hl hhull L f hf)]

/-- Counting in a sum of multisets. -/
theorem count_sum_map {β : Type} (l : List β) (g : β → Multiset OverlapRecord)
    (t : OverlapRecord) :
    ((l.map g).sum).count t = (l.map (fun x => (g x).count t)).sum := by
  induction l with
  | nil => rfl
  | cons x xs ih => simp [Multiset.count_add, ih]

/-- Membership in a sum of multisets. -/
theorem mem_sum_map {β : Type} (l : List β) (g : β → Multiset OverlapRecord)
    (r : OverlapRecord) :
    r ∈ (l.map g).sum ↔ ∃ x ∈ l, r ∈ g x := by
  induction l with
  | nil => simp
  | cons x xs ih => simp [Multiset.mem_add, ih]

/-- Counting in a flat map of record lists. -/
theorem count_flatMap_sum {β : Type} (l : List β) (g : β → List OverlapRecord)
    (t : OverlapRecord) :
    (l.flatMap g).count t = (l.map (fun x => (g x).count t)).sum := by
  induction l with
  | nil => rfl
  | cons x xs ih =>
    rw [List.flatMap_cons, List.count_append, List.map_cons, List.sum_cons, ih]

/-- Shape of the records emitted for one cell against one layer: each
carries the cell's PUID, some feature's ID, and the rounded intersection
area of a non-empty intersection. -/
theorem mem_cellDirect {a : Finset α → ℚ} {L : List (Feature α)}
    {c : PUCell α} {r : OverlapRecord}
    (h : r ∈ L.filterMap (fun f =>
      if (c.geom ∩ f.geom).Nonempty then
        some (⟨c.puid, f.fid, roundHalfEven (a (c.geom ∩ f.geom))⟩ :
          OverlapRecord)
      else none)) :
    ∃ f ∈ L, r = ⟨c.puid, f.fid, roundHalfEven (a (c.geom ∩ f.geom))⟩ ∧
      (c.geom ∩ f.geom).Nonempty := by
  obtain ⟨f, hf, heq⟩ := List.mem_filterMap.mp h
  by_cases hN : (c.geom ∩ f.geom).Nonempty
  · rw [if_pos hN] at heq
    exact ⟨f, hf, (Option.some_inj.mp heq).symm, hN⟩
  · rw [if_neg hN] at heq
    cases heq

/-- Shape of the records of a direct overlay of a grid with a layer. -/
theorem mem_directRows {a : Finset α → ℚ} {planning_grid : List (PUCell α)}
    {L : List (Feature α)} {r : OverlapRecord}
    (h : r ∈ directRows a planning_grid L) :
    ∃ c ∈ planning_grid, ∃ f ∈ L,
      r = ⟨c.puid, f.fid, roundHalfEven (a (c.geom ∩ f.geom))⟩ ∧
      (c.geom ∩ f.geom).Nonempty := by
  obtain ⟨c, hc, hmem⟩ := List.mem_flatMap.mp h
  obtain ⟨f, hf, heq, hN⟩ := mem_cellDirect hmem
  exact ⟨c, hc, f, hf, heq, hN⟩

/-- Multiset count of a list coincides with list count. -/
theorem ofList_count (t : OverlapRecord) (l : List OverlapRecord) :
    (Multiset.ofList l).count t = l.count t :=
  Multiset.coe_count t l

/-- Multiset membership of a list coincides with list membership. -/
theorem ofList_mem (t : OverlapRecord) (l : List OverlapRecord) :
    t ∈ Multiset.ofList l ↔ t ∈ l :=
  Multiset.mem_coe

/-- A layer none of whose feature IDs matches the record's feature ID
contributes no copy of the record. -/
theorem count_directRows_eq_zero (a : Finset α → ℚ)
    (planning_grid : List (PUCell α)) (L : List (Feature α))
    (t : OverlapRecord) (h : ∀ f ∈ L, f.fid ≠ t.fid) :
    (directRows a planning_grid L).count t = 0 := by
  rw [List.count_eq_zero]
  intro hmem
  obtain ⟨c', _, f', hf', heq, _⟩ := mem_directRows hmem
  apply h f' hf'
  rw [heq]

/-- With unique PUIDs in the grid and unique feature IDs in the layer, an
intersecting (cell, feature) pair contributes exactly one copy of its
record to the direct overlay. -/
theorem count_directRows_eq_one (a : Finset α → ℚ)
    (planning_grid : List (PUCell α)) (L : List (Feature α)) (c : PUCell α)
    (f : Feature α) (hpu : (planning_grid.map (fun x => x.puid)).Nodup)
    (hfidL : (L.map (fun x => x.fid)).Nodup) (hcg : c ∈ planning_grid)
    (hfL : f ∈ L) (hne : (c.geom ∩ f.geom).Nonempty) :
    (directRows a planning_grid L).count
      ⟨c.puid, f.fid, roundHalfEven (a (c.geom ∩ f.geom))⟩ = 1 := by
  unfold directRows
  rw [count_flatMap_sum]
  obtain ⟨p, q, rfl⟩ := List.append_of_mem hcg
  rw [List.map_append, List.map_cons] at hpu
  obtain ⟨np, nmid, hdisjp⟩ := List.nodup_append.mp hpu
  obtain ⟨hcq, nq⟩ := List.nodup_cons.mp nmid
  rw [List.map_append, List.sum_append, List.map_cons, List.sum_cons]
  have hp0 : ((p.map (fun c' => (L.filterMap (fun f' =>
      if (c'.geom ∩ f'.geom).Nonempty then
        some (⟨c'.puid, f'.fid, roundHalfEven (a (c'.geom ∩ f'.geom))⟩ :
          OverlapRecord)
      else none)).count
        ⟨c.puid, f.fid, roundHalfEven (a (c.geom ∩ f.geom))⟩)).sum = 0) := by
    apply List.sum_eq_zero
    intro x hx
    obtain ⟨c', hc', rfl⟩ := List.mem_map.mp hx
    rw [List.count_eq_zero]
    intro hmem
    obtain ⟨f', _, heq, _⟩ := mem_cellDirect hmem
    have hpe : c.puid = c'.puid := congrArg OverlapRecord.puid heq
    exact hdisjp (List.mem_map.mpr ⟨c', hc', rfl⟩)
      (by rw [← hpe]; exact List.mem_cons_self _ _)
  have hq0 : ((q.map (fun c' => (L.filterMap (fun f' =>
      if (c'.geom ∩ f'.geom).Nonempty then
        some (⟨c'.puid, f'.fid, roundHalfEven (a (c'.geom ∩ f'.geom))⟩ :
          OverlapRecord)
      else none)).count
        ⟨c.puid, f.fid, roundHalfEven (a (c.geom ∩ f.geom))⟩)).sum = 0) := by
    apply List.sum_eq_zero
    intro x hx
    obtain ⟨c', hc', rfl⟩ := List.mem_map.mp hx
    rw [List.count_eq_zero]
    intro hmem
    obtain ⟨f', _, heq, _⟩ := mem_cellDirect hmem
    have hpe : c.puid = c'.puid := congrArg OverlapRecord.puid heq
    exact hcq (by rw [hpe]; exact List.mem_map.mpr ⟨c', hc', rfl⟩)
  have hmid : ((L.filterMap (fun f' =>
      if (c.geom ∩ f'.geom).Nonempty then
        some (⟨c.puid, f'.fid, roundHalfEven (a (c.geom ∩ f'.geom))⟩ :
          OverlapRecord)
      else none)).count
        ⟨c.puid, f.fid, roundHalfEven (a (c.geom ∩ f.geom))⟩ = 1) := by
    obtain ⟨l₁, l₂, rfl⟩ := List.append_of_mem hfL
    rw [List.map_append, List.map_cons] at hfidL
    obtain ⟨n1, n2, hdisjL⟩ := List.nodup_append.mp hfidL
    obtain ⟨hfl2, nl2⟩ := List.nodup_cons.mp n2
    rw [List.filterMap_append, List.count_append, List.filterMap_cons,
      if_pos hne]
    have h1 : ((l₁.filterMap (fun f' =>
        if (c.geom ∩ f'.geom).Nonempty then
          some (⟨c.puid, f'.fid, roundHalfEven (a (c.geom ∩ f'.geom))⟩ :
            OverlapRecord)
        else none)).count
          ⟨c.puid, f.fid, roundHalfEven (a (c.geom ∩ f.geom))⟩ = 0) := by
      rw [List.count_eq_zero]
      intro hmem
      obtain ⟨f', hf', heq, _⟩ := mem_cellDirect hmem
      have hfe : f.fid = f'.fid := congrArg OverlapRecord.fid heq
      exact hdisjL (List.mem_map.mpr ⟨f', hf', rfl⟩)
        (by rw [← hfe]; exact List.mem_cons_self _ _)
    have h2 : ((l₂.filterMap (fun f' =>
        if (c.geom ∩ f'.geom).Nonempty then
          some (⟨c.puid, f'.fid, roundHalfEven (a (c.geom ∩ f'.geom))⟩ :
            OverlapRecord)
        else none)).count
          ⟨c.puid, f.fid, roundHalfEven (a (c.geom ∩ f.geom))⟩ = 0) := by
      rw [List.count_eq_zero]
      intro hmem
      obtain ⟨f', hf', heq, _⟩ := mem_cellDirect hmem
      have hfe : f.fid = f'.fid := congrArg OverlapRecord.fid heq
      exact hfl2 (by rw [hfe]; exact List.mem_map.mpr ⟨f', hf', rfl⟩)
    rw [h1, List.count_cons_self, h2]
  rw [hp0, hq0, hmid]
  norm_num

/-- Claim C9: for every (cell, feature) pair whose geometric intersection
is non-empty, `calculate_overlap` emits exactly one overlap record for the
pair; its amount is the backend's intersection area rounded to an integer,
and a record whose rounded area is 0 is emitted like any other — no
non-empty intersection is dropped for its rounded-area magnitude
(PUIDs and feature IDs are assumed unique, as produced by the grid builder
and the layers' ID attribute). -/
theorem calculate_overlap_unique_record (a : Finset α → ℚ)
    (hl : Finset α → Finset α) (cores : ℕ) (planning_grid : List (PUCell α))
    (cons_layers : List (List (Feature α))) (c : PUCell α)
    (L : List (Feature α)) (f : Feature α) (hc : 1 ≤ cores)
    (hhull : ∀ g : Finset α, g ⊆ hl g)
    (hpu : (planning_grid.map (fun x => x.puid)).Nodup)
    (hfid : (cons_layers.flatten.map (fun x => x.fid)).Nodup)
    (hcg : c ∈ planning_grid) (hLs : L ∈ cons_layers) (hfL : f ∈ L)
    (hne : (c.geom ∩ f.geom).Nonempty) :
    ((overlapRecords
        (calculate_overlap a hl cores planning_grid cons_layers)).count
        ⟨c.puid, f.fid, roundHalfEven (a (c.geom ∩ f.geom))⟩ = 1) ∧
    ∀ r ∈ overlapRecords
        (calculate_overlap a hl cores planning_grid cons_layers),
      r.puid = c.puid → r.fid = f.fid →
      r = ⟨c.puid, f.fid, roundHalfEven (a (c.geom ∩ f.geom))⟩ := by
  have hg : planning_grid.isEmpty = false := by
    cases planning_grid
    · cases hcg
    · rfl
  have hLlen : cons_layers.length ≠ 0 := by
    cases cons_layers
    · cases hLs
    · simp
  have hform := records_direct_form a hl cores planning_grid cons_layers hc
    hLlen hg hhull
  constructor
  · rw [← ofList_count, hform, count_sum_map]
    obtain ⟨s, u, rfl⟩ := List.append_of_mem hLs
    rw [List.flatten_append, List.flatten_cons, List.map_append,
      List.map_append] at hfid
    obtain ⟨ns, nmid, hdisj⟩ := List.nodup_append.mp hfid
    obtain ⟨nL, nu, hdisj2⟩ := List.nodup_append.mp nmid
    rw [List.map_append, List.sum_append, List.map_cons, List.sum_cons]
    have hLe : L.isEmpty = false := by
      cases L
      · cases hfL
      · rfl
    set g : List (Feature α) → ℕ := fun L2 =>
      (if L2.isEmpty then (0 : Multiset OverlapRecord)
        else Multiset.ofList (directRows a planning_grid L2)).count
        ⟨c.puid, f.fid, roundHalfEven (a (c.geom ∩ f.geom))⟩ with hgdef
    have hs0 : (s.map g).sum = 0 := by
      apply List.sum_eq_zero
      intro x hx
      obtain ⟨L2, hL2, rfl⟩ := List.mem_map.mp hx
      rw [hgdef]
      by_cases hLe2 : L2.isEmpty
      · simp [hLe2]
      · simp only [hLe2, Bool.false_eq_true, if_false, ofList_count]
        apply count_directRows_eq_zero
        intro f2 hf2 hfe
        simp only at hfe
        exact hdisj
          (List.mem_map.mpr ⟨f2, List.mem_flatten.mpr ⟨L2, hL2, hf2⟩, rfl⟩)
          (by
            rw [hfe]
            exact List.mem_append.mpr
              (Or.inl (List.mem_map.mpr ⟨f, hfL, rfl⟩)))
    have hu0 : (u.map g).sum = 0 := by
      apply List.sum_eq_zero
      intro x hx
      obtain ⟨L2, hL2, rfl⟩ := List.mem_map.mp hx
      rw [hgdef]
      by_cases hLe2 : L2.isEmpty
      · simp [hLe2]
      · simp only [hLe2, Bool.false_eq_true, if_false, ofList_count]
        apply count_directRows_eq_zero
        intro f2 hf2 hfe
        simp only at hfe
        exact hdisj2 (List.mem_map.mpr ⟨f, hfL, rfl⟩)
          (by
            rw [← hfe]
            exact List.mem_map.mpr ⟨f2, List.mem_flatten.mpr ⟨L2, hL2, hf2⟩, rfl⟩)
    have hmid : g L = 1 := by
      rw [hgdef]
      simp only [hLe, Bool.false_eq_true, if_false, ofList_count]
      exact count_directRows_eq_one a planning_grid L c f hpu nL hcg hfL hne
    rw [hs0, hu0]
    have hmid2 : (Multiset.count
        ⟨c.puid, f.fid, roundHalfEven (a (c.geom ∩ f.geom))⟩
        (if L.isEmpty = true then 0
          else Multiset.ofList (directRows a planning_grid L))) = 1 := hmid
    rw [hmid2]
    norm_num
  · intro r hr hrp hrf
    have hr2 : r ∈ Multiset.ofList
        (overlapRecords (calculate_overlap a hl cores planning_grid
          cons_layers)) := (ofList_mem r _).mpr hr
    rw [hform] at hr2
    obtain ⟨L2, hL2, hrL⟩ := (mem_sum_map _ _ _).mp hr2
    by_cases hLe2 : L2.isEmpty
    · rw [if_pos hLe2] at hrL
      exact absurd hrL (Multiset.not_mem_zero r)
    · simp only [hLe2, Bool.false_eq_true, if_false] at hrL
      have hrL2 : r ∈ directRows a planning_grid L2 := (ofList_mem r _).mp hrL
      obtain ⟨c2, hc2, f2, hf2, heq, hN⟩ := mem_directRows hrL2
      have hce : c2 = c := by
        refine List.inj_on_of_nodup_map hpu hc2 hcg ?_
        rw [heq] at hrp
        simpa using hrp
      have hfe : f2 = f := by
        refine List.inj_on_of_nodup_map hfid ?_ ?_ ?_
        · exact List.mem_flatten.mpr ⟨L2, hL2, hf2⟩
        · exact List.mem_flatten.mpr ⟨L, hLs, hfL⟩
        · rw [heq] at hrf
          simpa using hrf
      rw [heq, hce, hfe]

/-- Witness for `calculate_overlap_unique_record`: a single cell and a
single feature sharing the point 0. -/
theorem calculate_overlap_unique_record_witness :
    (({0} : Finset ℤ) ∩ {0}).Nonempty ∧
    (((overlapRecords (calculate_overlap (fun g => (g.card : ℚ)) id 1
        ([⟨1, {0}⟩] : List (PUCell ℤ)) [[⟨5, {0}⟩]])).count
        ⟨(⟨1, {0}⟩ : PUCell ℤ).puid, (⟨5, ({0} : Finset ℤ)⟩ : Feature ℤ).fid,
          roundHalfEven ((((⟨1, {0}⟩ : PUCell ℤ).geom ∩
            (⟨5, ({0} : Finset ℤ)⟩ : Feature ℤ).geom).card : ℚ))⟩ = 1) ∧
      ∀ r ∈ overlapRecords (calculate_overlap (fun g => (g.card : ℚ)) id 1
          ([⟨1, {0}⟩] : List (PUCell ℤ)) [[⟨5, {0}⟩]]),
        r.puid = (⟨1, {0}⟩ : PUCell ℤ).puid →
        r.fid = (⟨5, ({0} : Finset ℤ)⟩ : Feature ℤ).fid →
        r = ⟨(⟨1, {0}⟩ : PUCell ℤ).puid,
          (⟨5, ({0} : Finset ℤ)⟩ : Feature ℤ).fid,
          roundHalfEven ((((⟨1, {0}⟩ : PUCell ℤ).geom ∩
            (⟨5, ({0} : Finset ℤ)⟩ : Feature ℤ).geom).card : ℚ))⟩) :=
  ⟨by decide,
    calculate_overlap_unique_record (fun g => (g.card : ℚ)) id 1
      [⟨1, {0}⟩] [[⟨5, {0}⟩]] ⟨1, {0}⟩ [⟨5, {0}⟩] ⟨5, {0}⟩
      (by norm_num) (fun g => subset_refl g) (by decide) (by decide)
      (List.mem_cons_self _ _) (List.mem_cons_self _ _)
      (List.mem_cons_self _ _) (by decide)⟩

/-- A positive-step while loop not entered performs zero iterations. -/
theorem ceil_count_zero {e s x : ℝ} (h : ¬ x < e) (hs : 0 < s) :
    (⌈(e - x) / s⌉).toNat = 0 := by
  have h1 : (e - x) / s ≤ 0 :=
    div_nonpos_of_nonpos_of_nonneg (by linarith) (le_of_lt hs)
  have h2 : ⌈(e - x) / s⌉ ≤ 0 := Int.ceil_le.mpr (by simpa using h1)
  omega

/-- A positive-step while loop that is entered performs at least one
iteration. -/
theorem ceil_count_pos {e s x : ℝ} (h : x < e) (hs : 0 < s) :
    0 < (⌈(e - x) / s⌉).toNat := by
  have h1 : (0 : ℝ) < (e - x) / s := div_pos (by linarith) hs
  have h2 : 0 < ⌈(e - x) / s⌉ := Int.ceil_pos.mpr h1
  omega

/-- One step of a positive-step while loop decrements the remaining
iteration count. -/
theorem ceil_count_step {e s x : ℝ} (hs : 0 < s) :
    (⌈(e - (x + s)) / s⌉).toNat = (⌈(e - x) / s⌉).toNat - 1 := by
  have h1 : (e - (x + s)) / s = (e - x) / s - 1 := by
    field_simp
    ring
  rw [h1, Int.ceil_sub_one]
  omega

/-- `v_start_array` only depends on the index's parity. -/
theorem v_start_array_mod (b : BBox) (side : ℝ) (i : ℕ) :
    v_start_array b side i = v_start_array b side (i % 2) := by
  unfold v_start_array
  have h2 : i % 2 % 2 = i % 2 := by omega
  rw [h2]

/-- The inner while loop of `create_hexgrid`, given enough fuel, emits the
arithmetic progression of row centers of length `rowCount`. -/
theorem colFuel_eq (b : BBox) (side : ℝ) (hv : 0 < v_step side) :
    ∀ (n : ℕ) (c_y : ℝ), rowCount b side c_y ≤ n →
    colFuel (v_end b side) (v_step side) n c_y =
      some ((List.range (rowCount b side c_y)).map
        (fun i : ℕ => c_y + (i : ℝ) * v_step side)) := by
  intro n
  induction n with
  | zero =>
    intro c_y h
    have h0 : rowCount b side c_y = 0 := Nat.le_zero.mp h
    have hlt : ¬ c_y < v_end b side := by
      intro hlt
      have := ceil_count_pos hlt hv
      unfold rowCount at h0
      omega
    simp only [colFuel, if_neg hlt, h0, List.range_zero, List.map_nil]
  | succ n ih =>
    intro c_y h
    by_cases hlt : c_y < v_end b side
    · have hstep : rowCount b side (c_y + v_step side) =
          rowCount b side c_y - 1 := ceil_count_step hv
      have hpos : 0 < rowCount b side c_y := ceil_count_pos hlt hv
      simp only [colFuel, if_pos hlt]
      rw [ih (c_y + v_step side) (by omega)]
      rw [show rowCount b side c_y = (rowCount b side c_y - 1) + 1 by omega,
        List.range_succ_eq_map, List.map_cons, List.map_map]
      simp only [Option.map_some, Nat.cast_zero, zero_mul, add_zero, hstep]
      refine congrArg some (congrArg (List.cons c_y) ?_)
      refine List.map_congr_left (fun i _ => ?_)
      simp only [Function.comp]
      push_cast
      ring
    · have h0 : rowCount b side c_y = 0 := by
        unfold rowCount
        exact ceil_count_zero hlt hv
      simp only [colFuel, if_neg hlt, h0, List.range_zero, List.map_nil]

/-- The outer while loop of `create_hexgrid`, given enough fuel for both
loops, emits the column-by-column closed form: column `j` sits at
`c_x + j * h_step` and starts at the `v_start_array` entry of index
`k + j`, toggling parity every column. -/
theorem gridFuel_eq (b : BBox) (side : ℝ) (fI : ℕ) (hside : 0 < side)
    (hf0 : rowCount b side (v_start_array b side 0) ≤ fI)
    (hf1 : rowCount b side (v_start_array b side 1) ≤ fI) :
    ∀ (n : ℕ) (c_x : ℝ) (k : ℕ), colCountFrom b side c_x ≤ n →
    gridFuel b side fI n c_x (v_start_array b side k) (k + 1) =
      some ((List.range (colCountFrom b side c_x)).flatMap (fun j : ℕ =>
        (List.range (rowCount b side (v_start_array b side (k + j)))).map
          (fun i : ℕ => (c_x + (j : ℝ) * h_step side,
            v_start_array b side (k + j) + (i : ℝ) * v_step side)))) := by
  have hh : 0 < h_step side := by
    unfold h_step
    positivity
  have hv : 0 < v_step side := by
    unfold v_step
    positivity
  intro n
  induction n with
  | zero =>
    intro c_x k h
    have h0 : colCountFrom b side c_x = 0 := Nat.le_zero.mp h
    have hlt : ¬ c_x < h_end b side := by
      intro hlt
      have := ceil_count_pos hlt hh
      unfold colCountFrom at h0
      omega
    simp only [gridFuel, if_neg hlt, h0, List.range_zero, List.flatMap_nil]
  | succ n ih =>
    intro c_x k h
    by_cases hlt : c_x < h_end b side
    · have hbk : rowCount b side (v_start_array b side k) ≤ fI := by
        rw [v_start_array_mod b side k]
        rcases Nat.mod_two_eq_zero_or_one k with h2 | h2
        · rw [h2]
          exact hf0
        · rw [h2]
          exact hf1
      have hstep : colCountFrom b side (c_x + h_step side) =
          colCountFrom b side c_x - 1 := ceil_count_step hh
      have hpos : 0 < colCountFrom b side c_x := ceil_count_pos hlt hh
      obtain ⟨m, hm⟩ : ∃ m, colCountFrom b side c_x = m + 1 :=
        ⟨colCountFrom b side c_x - 1, by omega⟩
      simp only [gridFuel, if_pos hlt]
      rw [colFuel_eq b side hv fI (v_start_array b side k) hbk]
      rw [ih (c_x + h_step side) (k + 1) (by omega), hstep, hm]
      simp only [Nat.add_sub_cancel]
      rw [List.range_succ_eq_map, List.flatMap_cons, List.flatMap_map]
      refine congrArg some ?_
      congr 1
      · rw [List.map_map]
        simp only [Nat.add_zero, Nat.cast_zero, zero_mul, add_zero]
        rfl
      · refine congrArg _ (funext (fun j => ?_))
        simp only [Function.comp, Nat.succ_eq_add_one]
        have hidx : k + 1 + j = k + (j + 1) := by omega
        rw [hidx]
        refine List.map_congr_left (fun i _ => ?_)
        refine Prod.ext ?_ rfl
        push_cast
        ring
    · have h0 : colCountFrom b side c_x = 0 := by
        unfold colCountFrom
        exact ceil_count_zero hlt hh
      simp only [gridFuel, if_neg hlt, h0, List.range_zero, List.flatMap_nil]

/-- The fuel-indexed loop embedding of `create_hexgrid` computes the
closed form whenever both fuels cover the loop counts. -/
theorem create_hexgridF_eq (b : BBox) (side : ℝ) (fO fI : ℕ)
    (hside : 0 < side) (hfO : colCount b side ≤ fO)
    (hf0 : rowCount b side (v_start_array b side 0) ≤ fI)
    (hf1 : rowCount b side (v_start_array b side 1) ≤ fI) :
    create_hexgridF b side fO fI = some (create_hexgrid b side) :=
  gridFuel_eq b side fI hside hf0 hf1 fO (h_start b side)
    (v_start_idx0 b side) hfO

/-- Claim C10: for every bounding box (any four finite scalars, in any
corner order, as the function normalises with min/max) and every positive
edge length, `create_hexgrid` terminates: both loop steps are strictly
positive and the loop bounds finite, so with enough fuel the nested while
loops complete and return the finite list of centers of the closed form. -/
theorem create_hexgrid_terminates (b : BBox) (side : ℝ) (h : 0 < side) :
    ∃ fO fI : ℕ,
      create_hexgridF b side fO fI = some (create_hexgrid b side) :=
  ⟨colCount b side,
    max (rowCount b side (v_start_array b side 0))
      (rowCount b side (v_start_array b side 1)),
    create_hexgridF_eq b side _ _ h le_rfl (le_max_left _ _)
      (le_max_right _ _)⟩

/-- Witness for `create_hexgrid_terminates` at the unit box with edge
length 1. -/
theorem create_hexgrid_terminates_witness :
    (0 : ℝ) < 1 ∧
    ∃ fO fI : ℕ,
      create_hexgridF ⟨0, 0, 1, 1⟩ 1 fO fI =
        some (create_hexgrid ⟨0, 0, 1, 1⟩ 1) :=
  ⟨by norm_num, create_hexgrid_terminates ⟨0, 0, 1, 1⟩ 1 (by norm_num)⟩

/-- The centers of `create_hexgrid` are produced in nested-loop order:
strictly ascending x over the columns, strictly ascending y within each
column. -/
theorem create_hexgrid_sorted (b : BBox) (side : ℝ) (hside : 0 < side) :
    List.Pairwise centerLT (create_hexgrid b side) := by
  have hh : 0 < h_step side := by
    unfold h_step
    positivity
  have hv : 0 < v_step side := by
    unfold v_step
    positivity
  unfold create_hexgrid
  rw [List.flatMap_def, List.pairwise_flatten]
  constructor
  · intro col hcol
    obtain ⟨j, _, rfl⟩ := List.mem_map.mp hcol
    rw [List.pairwise_map]
    refine (List.pairwise_lt_range _).imp ?_
    intro i i' hii
    right
    refine ⟨rfl, ?_⟩
    show colStartY b side j + (i : ℝ) * v_step side <
      colStartY b side j + (i' : ℝ) * v_step side
    have hcast : (i : ℝ) < i' := by exact_mod_cast hii
    have := mul_lt_mul_of_pos_right hcast hv
    linarith
  · rw [List.pairwise_map]
    refine (List.pairwise_lt_range _).imp ?_
    intro j j' hjj x hx y hy
    obtain ⟨i, _, rfl⟩ := List.mem_map.mp hx
    obtain ⟨i', _, rfl⟩ := List.mem_map.mp hy
    left
    show colX b side j < colX b side j'
    unfold colX
    have hcast : (j : ℝ) < j' := by exact_mod_cast hjj
    have := mul_lt_mul_of_pos_right hcast hh
    linarith

/-- Claim C7: for every bounding box and positive cell area, the hexagon
centers are produced in nested-loop order — outer loop over columns with
strictly ascending x, inner loop over rows with strictly ascending y
within each column — and `create_planning_unit_grid` assigns PUIDs 1..N to
the cells in exactly that production order. -/
theorem create_planning_unit_grid_ordering (box : BBox) (Area : ℝ)
    (h : 0 < Area) :
    List.Pairwise centerLT (create_hexgrid box (hex_edge Area)) ∧
    (create_planning_unit_grid box Area).map (fun cell => cell.PUID) =
      List.range' 1 (create_hexgrid box (hex_edge Area)).length := by
  have hedge : 0 < hex_edge Area := by
    unfold hex_edge
    apply Real.sqrt_pos.mpr
    have h3 : (0 : ℝ) < Real.sqrt 3 := Real.sqrt_pos.mpr (by norm_num)
    positivity
  exact ⟨create_hexgrid_sorted box (hex_edge Area) hedge,
    puid_map_range' box Area⟩

/-- Witness for `create_planning_unit_grid_ordering` at the unit box with
cell area 1. -/
theorem create_planning_unit_grid_ordering_witness :
    (0 : ℝ) < 1 ∧
    (List.Pairwise centerLT (create_hexgrid ⟨0, 0, 1, 1⟩ (hex_edge 1)) ∧
      (create_planning_unit_grid ⟨0, 0, 1, 1⟩ 1).map (fun cell => cell.PUID) =
        List.range' 1 (create_hexgrid ⟨0, 0, 1, 1⟩ (hex_edge 1)).length) :=
  ⟨by norm_num,
    create_planning_unit_grid_ordering ⟨0, 0, 1, 1⟩ 1 (by norm_num)⟩
